import Mathlib

/-!
# Verification of the FTP downloader core (`downloader.py`, `main.py`)

Shallow embedding of the pure/algorithmic core of the FTP downloader:
string manipulation is modelled on `String.data` character lists (Python
strings are character sequences), the remote server and the local
filesystem are modelled as explicit parameters (a `cwd`-success predicate,
a listing map, a per-file chunk stream), and the stateful loops of
`download_files_by_prefix` are modelled as folds threading an explicit
run state that also records ghost traces (resolved days, attempted files,
transfer invocations) used to state the invariants.
-/

namespace Downloader

/-! ## Python string primitives, modelled on character lists -/

/-- Python `str.lower()` (ASCII case folding, which is all the code relies on). -/
def pyLower (s : String) : String := String.mk (s.data.map Char.toLower)

/-- Python `str.startswith(p)`: `p` is a character-wise prefix of `s`. -/
def pyStartsWith (s p : String) : Bool := p.data.isPrefixOf s.data

/-- Python `str.endswith(p)`: `p` is a character-wise suffix of `s`. -/
def pyEndsWith (s p : String) : Bool := p.data.isSuffixOf s.data

/-- Python `str.rstrip("/")`: remove every trailing `'/'`. -/
def pyRstripSlash (s : String) : String :=
  String.mk ((s.data.reverse.dropWhile (fun c => c == '/')).reverse)

/-- Python `str.strip()`: remove leading and trailing whitespace. -/
def pyStrip (s : String) : String :=
  String.mk (((s.data.dropWhile Char.isWhitespace).reverse.dropWhile
    Char.isWhitespace).reverse)

/-- Python `os.path.basename`: the part after the last `'/'`. -/
def pyBasename (s : String) : String :=
  String.mk ((s.data.reverse.takeWhile (fun c => !(c == '/'))).reverse)

/-- Python slicing `s[a:b]` (for `0 ≤ a ≤ b`). -/
def pySlice (s : String) (a b : Nat) : String :=
  String.mk ((s.data.drop a).take (b - a))

/-- Python `int(s)` restricted to unsigned decimal digit strings; on any
other input `int` raises (or the subsequent `datetime` constructor raises),
and both are collapsed to `none` here because the caller's `try/except`
treats every such exception identically. -/
def pyInt? (s : String) : Option Nat :=
  if s.data ≠ [] ∧ s.data.all Char.isDigit then
    some (s.data.foldl (fun n c => n * 10 + (c.toNat - 48)) 0)
  else none

/-- Python `os.path.join` for two components (no component of interest is empty
or absolute except via the documented cases). -/
def pyJoin2 (a b : String) : String :=
  if pyStartsWith b "/" then b
  else if a = "" ∨ a.data.reverse.head? = some '/' then a ++ b
  else a ++ "/" ++ b

/-- Python `os.path.join` folded over a component list. -/
def pyJoin : List String → String
  | [] => ""
  | p :: ps => ps.foldl pyJoin2 p

/-- Zero-fill `s` on the left to width `w`, as `strftime` does for its
numeric directives. -/
def zfill (w : Nat) (s : String) : String :=
  String.mk (List.replicate (w - s.length) '0') ++ s

/-- Formatter for the `strftime` two-digit fields (`%m`, `%d`, `%H`, `%M`). -/
def fmt2 (n : Nat) : String := zfill 2 (Nat.repr n)

/-- Formatter for the `strftime` four-digit field (`%Y`). -/
def fmt4 (n : Nat) : String := zfill 4 (Nat.repr n)

/-! ## Dates -/

/-- A calendar date as carried by a Python `datetime` (only the date part
is consumed by path construction and per-day dedup). -/
structure Date where
  year : Nat
  month : Nat
  day : Nat
deriving DecidableEq

/-- The bounds every Python `datetime` date satisfies
(`MINYEAR = 1 ≤ year ≤ 9999 = MAXYEAR`, `1 ≤ month ≤ 12`, `1 ≤ day ≤ 31`). -/
def Date.InBounds (d : Date) : Prop :=
  1 ≤ d.year ∧ d.year ≤ 9999 ∧ 1 ≤ d.month ∧ d.month ≤ 12 ∧ 1 ≤ d.day ∧ d.day ≤ 31

instance (d : Date) : Decidable d.InBounds := by
  unfold Date.InBounds; infer_instance

/-! ## `build_possible_paths` -/

/-- The loop of the `seen`-set/`out`-list dedup idiom, with the
accumulated `seen` set. -/
def dedupAux {α : Type} [DecidableEq α] (seen : List α) : List α → List α
  | [] => []
  | p :: rest => if p ∈ seen then dedupAux seen rest else p :: dedupAux (p :: seen) rest

/-- The `seen`-set/`out`-list dedup idiom of `build_possible_paths`
(unique, preserving order). -/
def dedupKeepOrder {α : Type} [DecidableEq α] : List α → List α :=
  dedupAux []

/-- Function `build_possible_paths(base_path, date_obj)` from `downloader.py`:
candidate remote paths for a date, in preferred order. -/
def build_possible_paths (base_path : String) (d : Date) : List String :=
  let yyyy := fmt4 d.year
  let mm := fmt2 d.month
  let dd := fmt2 d.day
  let ddmmyyyy := dd ++ mm ++ yyyy
  let base := pyRstripSlash base_path
  let p1 := base ++ "/" ++ yyyy ++ "/" ++ mm ++ "/" ++ dd ++ "/"
  let p2 := base ++ "/" ++ yyyy ++ "/" ++ mm ++ "/" ++ ddmmyyyy ++ "/"
  dedupKeepOrder [p1, p2, pyRstripSlash p1, pyRstripSlash p2]

/-- Spec-side candidate 1: `base/yyyy/mm/dd/` (stripped base, trailing slash). -/
def specCandidate1 (base_path : String) (d : Date) : String :=
  pyRstripSlash base_path ++ "/" ++ fmt4 d.year ++ "/" ++ fmt2 d.month ++ "/" ++
    fmt2 d.day ++ "/"

/-- Spec-side candidate 2: `base/yyyy/mm/ddmmyyyy/`. -/
def specCandidate2 (base_path : String) (d : Date) : String :=
  pyRstripSlash base_path ++ "/" ++ fmt4 d.year ++ "/" ++ fmt2 d.month ++ "/" ++
    (fmt2 d.day ++ fmt2 d.month ++ fmt4 d.year) ++ "/"

/-- Spec-side candidate 3: `base/yyyy/mm/dd` (no trailing slash). -/
def specCandidate3 (base_path : String) (d : Date) : String :=
  pyRstripSlash base_path ++ "/" ++ fmt4 d.year ++ "/" ++ fmt2 d.month ++ "/" ++
    fmt2 d.day

/-- Spec-side candidate 4: `base/yyyy/mm/ddmmyyyy` (no trailing slash). -/
def specCandidate4 (base_path : String) (d : Date) : String :=
  pyRstripSlash base_path ++ "/" ++ fmt4 d.year ++ "/" ++ fmt2 d.month ++ "/" ++
    (fmt2 d.day ++ fmt2 d.month ++ fmt4 d.year)

/-! ### Helper lemmas for `build_possible_paths` -/

theorem pyRstripSlash_append_slash (s : String) :
    pyRstripSlash (s ++ "/") = pyRstripSlash s := by
  simp [pyRstripSlash, String.data_append]

theorem pyRstripSlash_eq_self (s : String)
    (h : s.data.reverse.head?.any (fun c => !(c == '/')) = true) :
    pyRstripSlash s = s := by
  unfold pyRstripSlash
  rcases hr : s.data.reverse with _ | ⟨c, tl⟩
  · rw [hr] at h; simp [Option.any] at h
  · rw [hr] at h
    simp only [List.head?, Option.any] at h
    rw [List.dropWhile_cons_of_neg (by simpa using h)]
    rw [← hr, List.reverse_reverse]

theorem toDigitsCore_succ_eq (b f n : Nat) (l : List Char) :
    Nat.toDigitsCore b (f + 1) n l =
      if n / b = 0 then Nat.digitChar (n % b) :: l
      else Nat.toDigitsCore b f (n / b) (Nat.digitChar (n % b) :: l) := rfl

theorem toDigitsCore_shape (b : Nat) :
    ∀ (f n : Nat) (l : List Char), ∃ pre : List Char,
      Nat.toDigitsCore b (f + 1) n l = pre ++ l ∧ pre ≠ [] ∧
      ∀ c ∈ pre, ∃ m, c = Nat.digitChar (m % b) := by
  intro f
  induction f with
  | zero =>
    intro n l
    refine ⟨[Nat.digitChar (n % b)], ?_, by simp, ?_⟩
    · rw [toDigitsCore_succ_eq]
      split <;> simp [Nat.toDigitsCore]
    · intro c hc; simp at hc; exact ⟨n, hc⟩
  | succ f ih =>
    intro n l
    by_cases h : n / b = 0
    · refine ⟨[Nat.digitChar (n % b)], ?_, by simp, ?_⟩
      · rw [toDigitsCore_succ_eq, if_pos h]; simp
      · intro c hc; simp at hc; exact ⟨n, hc⟩
    · obtain ⟨pre, hpre, hne, hall⟩ := ih (n / b) (Nat.digitChar (n % b) :: l)
      refine ⟨pre ++ [Nat.digitChar (n % b)], ?_, by simp, ?_⟩
      · rw [toDigitsCore_succ_eq, if_neg h, hpre]; simp
      · intro c hc
        rcases List.mem_append.mp hc with h1 | h1
        · exact hall c h1
        · simp at h1; exact ⟨n, h1⟩

theorem repr_data_digits (n : Nat) :
    (Nat.repr n).data ≠ [] ∧
    ∀ c ∈ (Nat.repr n).data, ∃ m, c = Nat.digitChar (m % 10) := by
  obtain ⟨pre, hpre, hne, hall⟩ := toDigitsCore_shape 10 n n []
  have h : (Nat.repr n).data = pre := by
    simp only [Nat.repr, Nat.toDigits, List.asString]
    rw [hpre]; simp
  rw [h]; exact ⟨hne, hall⟩

theorem digitChar_mod_not_slash (m : Nat) :
    (!(Nat.digitChar (m % 10) == '/')) = true := by
  have h : m % 10 < 10 := Nat.mod_lt m (by norm_num)
  have hall : ∀ k, k < 10 → (!(Nat.digitChar k == '/')) = true := by decide
  exact hall _ h

theorem reverse_head_append_any (s t : List Char) (p : Char → Bool)
    (hne : t ≠ []) (hall : ∀ c ∈ t, p c = true) :
    ((s ++ t).reverse.head?.any p) = true := by
  rw [List.reverse_append]
  rcases ht : t.reverse with _ | ⟨c, tl⟩
  · exact absurd (by simpa using congrArg List.reverse ht) hne
  · simp only [ht, List.cons_append, List.head?, Option.any]
    exact hall c (by
      have hc : c ∈ t.reverse := by rw [ht]; exact List.mem_cons_self c tl
      simpa using hc)

theorem fmt_data_eq (w n : Nat) :
    (zfill w (Nat.repr n)).data =
      List.replicate (w - (Nat.repr n).length) '0' ++ (Nat.repr n).data := by
  simp [zfill, String.data_append]

theorem fmt_data_ne_nil (w n : Nat) : (zfill w (Nat.repr n)).data ≠ [] := by
  rw [fmt_data_eq]
  intro h
  exact (repr_data_digits n).1 (by simpa using (List.append_eq_nil.mp h).2)

theorem fmt_data_not_slash (w n : Nat) :
    ∀ c ∈ (zfill w (Nat.repr n)).data, (!(c == '/')) = true := by
  rw [fmt_data_eq]
  intro c hc
  rcases List.mem_append.mp hc with h1 | h1
  · simp [List.eq_of_mem_replicate h1]
  · obtain ⟨m, rfl⟩ := (repr_data_digits n).2 c h1
    exact digitChar_mod_not_slash m

theorem fmt2_length : ∀ n, n < 100 → (fmt2 n).length = 2 := by decide

theorem fmt4_length (n : Nat) (h : n ≤ 9999) : (fmt4 n).length = 4 := by
  have h1 : (Nat.repr n).length ≤ 4 := Nat.repr_length n 4 (by norm_num) (by omega)
  simp only [fmt4, zfill, String.length_append]
  show (List.replicate (4 - (Nat.repr n).length) '0').length + _ = 4
  simp [List.length_replicate]
  omega

theorem pyRstripSlash_specCandidate1 (base_path : String) (d : Date) :
    pyRstripSlash (specCandidate1 base_path d) = specCandidate3 base_path d := by
  have h1 : specCandidate1 base_path d = specCandidate3 base_path d ++ "/" := rfl
  rw [h1, pyRstripSlash_append_slash]
  apply pyRstripSlash_eq_self
  have h2 : (specCandidate3 base_path d).data =
      (pyRstripSlash base_path ++ "/" ++ fmt4 d.year ++ "/" ++ fmt2 d.month ++ "/").data
        ++ (fmt2 d.day).data := String.data_append _ _
  rw [h2]
  exact reverse_head_append_any _ _ _ (fmt_data_ne_nil 2 d.day) (fmt_data_not_slash 2 d.day)

theorem pyRstripSlash_specCandidate2 (base_path : String) (d : Date) :
    pyRstripSlash (specCandidate2 base_path d) = specCandidate4 base_path d := by
  have h1 : specCandidate2 base_path d = specCandidate4 base_path d ++ "/" := rfl
  rw [h1, pyRstripSlash_append_slash]
  apply pyRstripSlash_eq_self
  have h2 : (specCandidate4 base_path d).data =
      ((pyRstripSlash base_path ++ "/" ++ fmt4 d.year ++ "/" ++ fmt2 d.month ++ "/").data
        ++ (fmt2 d.day ++ fmt2 d.month).data) ++ (fmt4 d.year).data := by
    simp [specCandidate4, String.data_append, List.append_assoc]
  rw [h2]
  exact reverse_head_append_any _ _ _ (fmt_data_ne_nil 4 d.year) (fmt_data_not_slash 4 d.year)

theorem specCandidate_lengths (base_path : String) (d : Date) (h : d.InBounds) :
    (specCandidate1 base_path d).length = (pyRstripSlash base_path).length + 12 ∧
    (specCandidate2 base_path d).length = (pyRstripSlash base_path).length + 18 ∧
    (specCandidate3 base_path d).length = (pyRstripSlash base_path).length + 11 ∧
    (specCandidate4 base_path d).length = (pyRstripSlash base_path).length + 17 := by
  obtain ⟨h1, h2, h3, h4, h5, h6⟩ := h
  have hY := fmt4_length d.year h2
  have hM := fmt2_length d.month (by omega)
  have hD := fmt2_length d.day (by omega)
  have hs : ("/" : String).length = 1 := rfl
  refine ⟨?_, ?_, ?_, ?_⟩ <;>
    simp [specCandidate1, specCandidate2, specCandidate3, specCandidate4,
      String.length_append, hY, hM, hD, hs] <;> omega

theorem build_possible_paths_eq_dedup (base_path : String) (d : Date) :
    build_possible_paths base_path d =
      dedupKeepOrder [specCandidate1 base_path d, specCandidate2 base_path d,
        pyRstripSlash (specCandidate1 base_path d),
        pyRstripSlash (specCandidate2 base_path d)] := rfl

/-- C1: for every base path string and every in-bounds date,
`build_possible_paths` returns exactly 4 distinct candidate strings, in
the fixed priority order `base/yyyy/mm/dd/`, `base/yyyy/mm/ddmmyyyy/`,
then the same two without the trailing slash, deduplicated with order
preserved; in particular for base `"/data"` and date 2023-09-05 it
returns exactly
`["/data/2023/09/05/", "/data/2023/09/05092023/", "/data/2023/09/05",
"/data/2023/09/05092023"]`. -/
theorem buildCandidates_four_distinct (base_path : String) (d : Date) (h : d.InBounds) :
    build_possible_paths base_path d =
      [specCandidate1 base_path d, specCandidate2 base_path d,
       specCandidate3 base_path d, specCandidate4 base_path d] ∧
    (build_possible_paths base_path d).Nodup ∧
    (build_possible_paths base_path d).length = 4 ∧
    build_possible_paths "/data" ⟨2023, 9, 5⟩ =
      ["/data/2023/09/05/", "/data/2023/09/05092023/",
       "/data/2023/09/05", "/data/2023/09/05092023"] := by
  obtain ⟨l1, l2, l3, l4⟩ := specCandidate_lengths base_path d h
  have ne12 : specCandidate1 base_path d ≠ specCandidate2 base_path d := fun he => by
    rw [he] at l1; omega
  have ne13 : specCandidate1 base_path d ≠ specCandidate3 base_path d := fun he => by
    rw [he] at l1; omega
  have ne14 : specCandidate1 base_path d ≠ specCandidate4 base_path d := fun he => by
    rw [he] at l1; omega
  have ne23 : specCandidate2 base_path d ≠ specCandidate3 base_path d := fun he => by
    rw [he] at l2; omega
  have ne24 : specCandidate2 base_path d ≠ specCandidate4 base_path d := fun he => by
    rw [he] at l2; omega
  have ne34 : specCandidate3 base_path d ≠ specCandidate4 base_path d := fun he => by
    rw [he] at l3; omega
  have heq : build_possible_paths base_path d =
      [specCandidate1 base_path d, specCandidate2 base_path d,
       specCandidate3 base_path d, specCandidate4 base_path d] := by
    rw [build_possible_paths_eq_dedup, pyRstripSlash_specCandidate1,
      pyRstripSlash_specCandidate2]
    simp [dedupKeepOrder, dedupAux, ne12, ne13, ne14, ne23, ne24, ne34,
      ne12.symm, ne13.symm, ne14.symm, ne23.symm, ne24.symm, ne34.symm]
  refine ⟨heq, ?_, ?_, by decide⟩
  · rw [heq]
    simp [ne12, ne13, ne14, ne23, ne24, ne34]
  · rw [heq]; rfl

/-- Witness for C1 at base `"/data"` and date 2023-09-05. -/
theorem buildCandidates_four_distinct_witness :
    build_possible_paths "/data" ⟨2023, 9, 5⟩ =
      [specCandidate1 "/data" ⟨2023, 9, 5⟩, specCandidate2 "/data" ⟨2023, 9, 5⟩,
       specCandidate3 "/data" ⟨2023, 9, 5⟩, specCandidate4 "/data" ⟨2023, 9, 5⟩] ∧
    (build_possible_paths "/data" ⟨2023, 9, 5⟩).Nodup ∧
    (build_possible_paths "/data" ⟨2023, 9, 5⟩).length = 4 ∧
    build_possible_paths "/data" ⟨2023, 9, 5⟩ =
      ["/data/2023/09/05/", "/data/2023/09/05092023/",
       "/data/2023/09/05", "/data/2023/09/05092023"] :=
  buildCandidates_four_distinct "/data" ⟨2023, 9, 5⟩ (by decide)

/-! ## `matches_station_file` -/

/-- Predicate `matches_station_file(filename, station_code)` from `downloader.py`:
must start with the station code and end with `.txt` (case-insensitive). -/
def matches_station_file (filename station_code : String) : Bool :=
  if !(pyEndsWith (pyLower filename) ".txt") then false
  else pyStartsWith filename station_code

/-- C2: `matches_station_file` returns true iff the filename ends with
`.txt` compared case-insensitively and starts with the station id as an
exact, case-sensitive prefix; with the three concrete examples
`("RTU12_0600.txt","RTU12") = true`, `("abcfile.txt","ABC") = false`,
`("RTU12.TXT","RTU12") = true`. -/
theorem matches_iff_suffix_and_prefix (filename station_code : String) :
    (matches_station_file filename station_code = true ↔
      ".txt".data <:+ filename.data.map Char.toLower ∧
      station_code.data <+: filename.data) ∧
    matches_station_file "RTU12_0600.txt" "RTU12" = true ∧
    matches_station_file "abcfile.txt" "ABC" = false ∧
    matches_station_file "RTU12.TXT" "RTU12" = true := by
  refine ⟨?_, by decide, by decide, by decide⟩
  unfold matches_station_file pyEndsWith pyLower pyStartsWith
  by_cases h : ".txt".data.isSuffixOf (String.mk (filename.data.map Char.toLower)).data
  · simp only [h, Bool.not_true, Bool.false_eq_true, if_false]
    rw [List.isPrefixOf_iff_prefix]
    rw [List.isSuffixOf_iff_suffix] at h
    simp only [String.mk] at h
    simp [h]
  · simp only [h, Bool.not_false, if_true]
    rw [List.isSuffixOf_iff_suffix] at h
    simp only [String.mk] at h
    simp [h]

/-- C10: an empty station id matches every `.txt` file, since the empty
string is a prefix of everything. -/
theorem matches_empty_station (filename : String)
    (h : pyEndsWith (pyLower filename) ".txt" = true) :
    matches_station_file filename "" = true := by
  unfold matches_station_file
  rw [h]
  simp [pyStartsWith, List.isPrefixOf]

/-- Witness for C10 at `"RTU12_0600.txt"`. -/
theorem matches_empty_station_witness :
    pyEndsWith (pyLower "RTU12_0600.txt") ".txt" = true ∧
    matches_station_file "RTU12_0600.txt" "" = true :=
  ⟨by decide, matches_empty_station "RTU12_0600.txt" (by decide)⟩

/-! ## `find_existing_remote_path` -/

/-- Function `find_existing_remote_path(ftp, base_path, date_obj)`: the connection
is abstracted by the predicate `cwdOk` giving the directories `ftp.cwd`
accepts; the loop returns the first accepted candidate, `None` otherwise.
(The best-effort `pwd` verification after entry is swallowed by the
source and has no effect on the result.) -/
def find_existing_remote_path (cwdOk : String → Bool) (base_path : String)
    (d : Date) : Option String :=
  List.find? cwdOk (build_possible_paths base_path d)

theorem find?_first_of_accepted {α : Type} (p : α → Bool) :
    ∀ (l : List α) (i : Nat) (hi : i < l.length),
      (∀ j (hj : j < i), p (l.get ⟨j, Nat.lt_trans hj hi⟩) = false) →
      p (l.get ⟨i, hi⟩) = true →
      List.find? p l = some (l.get ⟨i, hi⟩) := by
  intro l
  induction l with
  | nil => intro i hi; simp at hi
  | cons a t ih =>
    intro i hi hbefore hp
    cases i with
    | zero =>
      simp only [List.get] at hp
      simp [List.find?, hp]
    | succ j =>
      have ha : p a = false := hbefore 0 (Nat.succ_pos j)
      simp only [List.get] at hp ⊢
      rw [List.find?_cons_of_neg _ (by simp [ha])]
      exact ih j (Nat.lt_of_succ_lt_succ hi)
        (fun k hk => hbefore (k + 1) (Nat.succ_lt_succ hk)) hp

/-- C3: `find_existing_remote_path` returns the first candidate (in the
`build_possible_paths` priority order) accepted by the connection's `cwd`,
and `None` when no candidate is accepted, without raising. -/
theorem resolve_first_accepted (cwdOk : String → Bool) (base_path : String) (d : Date) :
    (∀ i (hi : i < (build_possible_paths base_path d).length),
      (∀ j (hj : j < i),
        cwdOk ((build_possible_paths base_path d).get ⟨j, Nat.lt_trans hj hi⟩) = false) →
      cwdOk ((build_possible_paths base_path d).get ⟨i, hi⟩) = true →
      find_existing_remote_path cwdOk base_path d =
        some ((build_possible_paths base_path d).get ⟨i, hi⟩)) ∧
    ((∀ c ∈ build_possible_paths base_path d, cwdOk c = false) →
      find_existing_remote_path cwdOk base_path d = none) := by
  constructor
  · intro i hi hbefore hp
    exact find?_first_of_accepted cwdOk _ i hi hbefore hp
  · intro hall
    exact List.find?_eq_none.mpr (fun x hx => by simp [hall x hx])

/-- Witness for C3: a stub connection accepting only the 2nd candidate
yields the 2nd candidate; a stub accepting nothing yields `None`. -/
theorem resolve_first_accepted_witness :
    find_existing_remote_path (fun s => s == "/data/2023/09/05092023/") "/data" ⟨2023, 9, 5⟩ =
      some ((build_possible_paths "/data" ⟨2023, 9, 5⟩).get ⟨1, by decide⟩) ∧
    find_existing_remote_path (fun _ => false) "/data" ⟨2023, 9, 5⟩ = none := by
  have hi : 1 < (build_possible_paths "/data" ⟨2023, 9, 5⟩).length := by decide
  refine ⟨(resolve_first_accepted (fun s => s == "/data/2023/09/05092023/")
      "/data" ⟨2023, 9, 5⟩).1 1 hi ?_ rfl,
    (resolve_first_accepted (fun _ => false) "/data" ⟨2023, 9, 5⟩).2 (fun c _ => rfl)⟩
  intro j hj
  have h0 : j = 0 := Nat.lt_one_iff.mp hj
  subst h0
  rfl

/-! ## `download_file_with_progress` -/

/-- One chunk delivered to the `retrbinary` callback of
`download_file_with_progress`: whether the cancel condition (per-run
`cancel_event` or process-global `_cancel_global`) is observed at this
chunk (the pause loop re-checks cancel on every wake, subsumed here),
the chunk length, and whether the local `f.write` raises an I/O error. -/
structure Chunk where
  cancelObserved : Bool
  size : Nat
  writeFails : Bool
deriving DecidableEq

/-- The remote side of one `RETR`: the chunks the server delivers, and
whether the connection is lost (an exception inside `retrbinary`) after
those chunks. -/
structure RetrStream where
  chunks : List Chunk
  connLost : Bool
deriving DecidableEq

/-- The `_callback` loop: cancel is checked before the write, then the
chunk is written and the received counter updated; the progress callback
runs after the write with its failures swallowed, so it never affects the
state. Returns the received byte count, or `none` if the loop raised. -/
def chunkLoop : List Chunk → Nat → Option Nat
  | [], received => some received
  | c :: rest, received =>
    if c.cancelObserved then none
    else if c.writeFails then none
    else chunkLoop rest (received + c.size)

/-- Whether anything in the transfer fails: a cancel observation or a
local write error at some chunk, or loss of the connection. -/
def RetrStream.hasFailure (st : RetrStream) : Bool :=
  st.chunks.any (fun c => c.cancelObserved || c.writeFails) || st.connLost

/-- Function `download_file_with_progress(ftp, remote_file, local_path, ...)`:
returns `(ok, file)` where `file` is the final state of the local path
(`some n` = a file with `n` received bytes, `none` = absent). `fs0` is
the file's prior state; `open(local_path, "wb")` truncates it regardless,
`_safe_makedirs` and the `ftp.size` probe do not affect it, and the
`except` branch removes the partial file (`os.remove`, whose own
best-effort failure is not modelled: removal succeeds). -/
def download_file_with_progress (st : RetrStream) (fs0 : Option Nat) :
    Bool × Option Nat :=
  match chunkLoop st.chunks 0 with
  | none => (false, none)
  | some received =>
    if st.connLost then (false, none) else (true, some received)

theorem chunkLoop_eq_none_iff (l : List Chunk) (r : Nat) :
    chunkLoop l r = none ↔
      l.any (fun c => c.cancelObserved || c.writeFails) = true := by
  induction l generalizing r with
  | nil => simp [chunkLoop]
  | cons c t ih =>
    by_cases hc : c.cancelObserved <;> by_cases hw : c.writeFails <;>
      simp [chunkLoop, hc, hw, ih]

/-- C4: every failing transfer — cancellation observed in the chunk loop,
local I/O error, or connection loss — reports failure and leaves no file
at the local path (the partial file is deleted), regardless of the file's
prior state; only a successful transfer leaves a file. -/
theorem transfer_failure_cleanup (st : RetrStream) (fs0 : Option Nat) :
    (st.hasFailure = true →
      download_file_with_progress st fs0 = (false, none)) ∧
    ((download_file_with_progress st fs0).1 = false →
      (download_file_with_progress st fs0).2 = none) ∧
    ((download_file_with_progress st fs0).2 ≠ none →
      (download_file_with_progress st fs0).1 = true) := by
  refine ⟨?_, ?_, ?_⟩
  · intro h
    unfold RetrStream.hasFailure at h
    rcases Bool.or_eq_true_iff.mp h with h1 | h1
    · unfold download_file_with_progress
      rw [(chunkLoop_eq_none_iff st.chunks 0).mpr h1]
    · unfold download_file_with_progress
      rcases hcl : chunkLoop st.chunks 0 with _ | n
      · rfl
      · simp [h1]
  · intro h
    unfold download_file_with_progress at h ⊢
    rcases hcl : chunkLoop st.chunks 0 with _ | n
    · rfl
    · rw [hcl] at h
      by_cases hc : st.connLost
      · simp [hc]
      · simp [hc] at h
  · intro h
    unfold download_file_with_progress at h ⊢
    rcases hcl : chunkLoop st.chunks 0 with _ | n
    · rw [hcl] at h
      simp at h
    · rw [hcl] at h
      by_cases hc : st.connLost
      · simp [hc] at h
      · simp [hc]

/-- Witness for C4: cancellation observed at the second chunk of a
transfer over a pre-existing 10-byte file reports failure and leaves no
file. -/
theorem transfer_failure_cleanup_witness :
    (RetrStream.mk [⟨false, 5, false⟩, ⟨true, 3, false⟩] false).hasFailure = true ∧
    download_file_with_progress
      (RetrStream.mk [⟨false, 5, false⟩, ⟨true, 3, false⟩] false) (some 10) =
      (false, none) :=
  ⟨by decide,
   (transfer_failure_cleanup
      (RetrStream.mk [⟨false, 5, false⟩, ⟨true, 3, false⟩] false) (some 10)).1
     (by decide)⟩

/-! ## `ftp_connect` -/

/-- A logged-in FTP connection; `pasv` records whether passive transfer
mode has been enabled (`ftp.set_pasv(True)`). -/
structure Conn where
  pasv : Bool
deriving DecidableEq

/-- Observable actions of `ftp_connect`: the `i`-th connect+login
attempt (0-based), and a `time.sleep(delay)`. -/
inductive ConnectAct where
  | attempt (i : Nat)
  | sleepDelay
deriving DecidableEq

/-- The retry loop of `ftp_connect`: `f i` is the outcome of the `i`-th
connect+login attempt (`ε` the exception raised on failure), `n` the
remaining attempts, `last` the last exception seen so far. Returns the
result (on exhaustion, `ConnectionError` carrying `last`) together with
the trace of attempts and sleeps; on any success, passive mode is set and
the connection returned with no further attempts. The `except` branch of
the source sleeps after every failed attempt, including the last one. -/
def connectLoop {ε : Type} (f : Nat → Except ε Conn) :
    Nat → Nat → Option ε → Except (Option ε) Conn × List ConnectAct
  | _, 0, last => (Except.error last, [])
  | i, n + 1, _ =>
    match f i with
    | Except.ok c => (Except.ok { c with pasv := true }, [ConnectAct.attempt i])
    | Except.error e =>
      let r := connectLoop f (i + 1) n (some e)
      (r.1, ConnectAct.attempt i :: ConnectAct.sleepDelay :: r.2)

/-- Function `ftp_connect(host, user, passwd, port, timeout, retries, delay)`,
with the network abstracted by the per-attempt outcome function `f`. -/
def ftp_connect {ε : Type} (f : Nat → Except ε Conn) (retries : Nat) :
    Except (Option ε) Conn × List ConnectAct :=
  connectLoop f 0 retries none

theorem range_flatMap_shift {β : Type} (g : Nat → List β) (n i : Nat) :
    (List.range (n + 1)).flatMap (fun j => g (i + j)) =
      g i ++ (List.range n).flatMap (fun j => g (i + 1 + j)) := by
  rw [List.range_succ_eq_map]
  simp only [List.flatMap_cons, Nat.add_zero, List.flatMap_map]
  simp only [Nat.succ_eq_add_one]
  have hf : (fun a : Nat => g (i + (a + 1))) = (fun a : Nat => g (i + 1 + a)) := by
    funext a
    have ha : i + (a + 1) = i + 1 + a := by omega
    rw [ha]
  rw [hf]

theorem connectLoop_all_fail {ε : Type} (f : Nat → Except ε Conn) (es : Nat → ε) :
    ∀ (n i : Nat) (last : Option ε), 0 < n →
      (∀ j, j < n → f (i + j) = Except.error (es (i + j))) →
      connectLoop f i n last =
        (Except.error (some (es (i + n - 1))),
         (List.range n).flatMap
           (fun j => [ConnectAct.attempt (i + j), ConnectAct.sleepDelay])) := by
  intro n
  induction n with
  | zero => intro i last h; omega
  | succ n ih =>
    intro i last _ hall
    have h0 : f i = Except.error (es i) := by simpa using hall 0 (Nat.succ_pos n)
    by_cases hn : n = 0
    · subst hn
      simp only [connectLoop, h0]
      simp [List.range_succ]
    · have hpos : 0 < n := Nat.pos_of_ne_zero hn
      have ih2 := ih (i + 1) (some (es i)) hpos
        (fun j hj => by
          have h1 := hall (j + 1) (Nat.succ_lt_succ hj)
          simpa [Nat.add_assoc, Nat.add_comm 1 j] using h1)
      simp only [connectLoop, h0, ih2]
      refine congrArg₂ Prod.mk ?_ ?_
      · simp only [show i + 1 + n - 1 = i + (n + 1) - 1 from by omega]
      · rw [range_flatMap_shift (fun m => [ConnectAct.attempt m, ConnectAct.sleepDelay])]
        rfl

theorem connectLoop_success {ε : Type} (f : Nat → Except ε Conn) (es : Nat → ε)
    (c : Conn) :
    ∀ (k i n : Nat) (last : Option ε), k < n →
      (∀ j, j < k → f (i + j) = Except.error (es (i + j))) →
      f (i + k) = Except.ok c →
      connectLoop f i n last =
        (Except.ok ⟨true⟩,
         ((List.range k).flatMap
            (fun j => [ConnectAct.attempt (i + j), ConnectAct.sleepDelay])) ++
           [ConnectAct.attempt (i + k)]) := by
  intro k
  induction k with
  | zero =>
    intro i n last hk hfail hok
    rcases n with _ | n
    · omega
    · simp only [connectLoop]
      rw [show i + 0 = i from rfl] at hok
      rw [hok]
      simp
  | succ k ih =>
    intro i n last hk hfail hok
    rcases n with _ | n
    · omega
    · have h0 : f i = Except.error (es i) := by simpa using hfail 0 (Nat.succ_pos k)
      have ih2 := ih (i + 1) n (some (es i)) (Nat.lt_of_succ_lt_succ hk)
        (fun j hj => by
          have h1 := hfail (j + 1) (Nat.succ_lt_succ hj)
          simpa [Nat.add_assoc, Nat.add_comm 1 j] using h1)
        (by rw [show i + 1 + k = i + (k + 1) by omega]; exact hok)
      simp only [connectLoop, h0, ih2]
      refine congrArg₂ Prod.mk rfl ?_
      rw [range_flatMap_shift (fun m => [ConnectAct.attempt m, ConnectAct.sleepDelay])]
      simp only [show i + 1 + k = i + (k + 1) from by omega]
      simp [List.append_assoc]

/-- C8: `ftp_connect` attempts login up to `retries` times with a sleep
between consecutive attempts (the source also sleeps after the final
failure); if every attempt fails it raises a `ConnectionError` carrying
the last underlying exception, and on the first successful attempt it
enables passive mode and returns with no further attempts. -/
theorem connect_retries (ε : Type) (f : Nat → Except ε Conn) (es : Nat → ε)
    (retries : Nat) (c : Conn) :
    (0 < retries →
      (∀ j, j < retries → f j = Except.error (es j)) →
      ftp_connect f retries =
        (Except.error (some (es (retries - 1))),
         (List.range retries).flatMap
           (fun j => [ConnectAct.attempt j, ConnectAct.sleepDelay]))) ∧
    (∀ k, k < retries →
      (∀ j, j < k → f j = Except.error (es j)) →
      f k = Except.ok c →
      ftp_connect f retries =
        (Except.ok ⟨true⟩,
         ((List.range k).flatMap
            (fun j => [ConnectAct.attempt j, ConnectAct.sleepDelay])) ++
           [ConnectAct.attempt k])) := by
  constructor
  · intro hr hall
    have h := connectLoop_all_fail f es retries 0 none hr
      (fun j hj => by simpa using hall j hj)
    simpa [ftp_connect] using h
  · intro k hk hfail hok
    have h := connectLoop_success f es c k 0 retries none hk
      (fun j hj => by simpa using hfail j hj)
      (by simpa using hok)
    simpa [ftp_connect] using h

/-- Witness for C8: with every attempt failing (error `j` at attempt `j`)
and `retries = 3`, the run makes 3 attempts, sleeps after each, and ends
with the last error `2`; with the attempt function succeeding at index 1,
the run stops after attempt 1 with passive mode enabled. -/
theorem connect_retries_witness :
    ftp_connect (fun j => (Except.error j : Except Nat Conn)) 3 =
      (Except.error (some 2),
       [ConnectAct.attempt 0, ConnectAct.sleepDelay, ConnectAct.attempt 1,
        ConnectAct.sleepDelay, ConnectAct.attempt 2, ConnectAct.sleepDelay]) ∧
    ftp_connect (fun j => if j == 1 then Except.ok ⟨false⟩ else Except.error j) 3 =
      (Except.ok ⟨true⟩,
       [ConnectAct.attempt 0, ConnectAct.sleepDelay, ConnectAct.attempt 1]) := by
  constructor
  · have h := (connect_retries Nat (fun j => Except.error j) (fun j => j) 3 ⟨false⟩).1
      (by omega) (fun j _ => rfl)
    simpa using h
  · have h := (connect_retries Nat
      (fun j => if j == 1 then Except.ok ⟨false⟩ else Except.error j)
      (fun j => j) 3 ⟨false⟩).2 1 (by omega)
      (fun j hj => by
        have h0 : j = 0 := Nat.lt_one_iff.mp hj
        subst h0; rfl)
      rfl
    simpa using h

/-! ## The single-timestamp encoding of `ServerController._worker` -/

/-- Gregorian leap year, as `datetime` uses. -/
def isLeapYear (y : Nat) : Bool :=
  y % 4 == 0 && (y % 100 != 0 || y % 400 == 0)

/-- Days in a month, as `datetime` validates. -/
def daysInMonth (y m : Nat) : Nat :=
  if m = 2 then (if isLeapYear y then 29 else 28)
  else if m = 4 ∨ m = 6 ∨ m = 9 ∨ m = 11 then 30
  else 31

/-- A full timestamp as built by `datetime(year, m, d, H, M)`. -/
structure Stamp where
  year : Nat
  month : Nat
  day : Nat
  hour : Nat
  minute : Nat
deriving DecidableEq

/-- What the `datetime` constructor accepts (it raises `ValueError`
otherwise). -/
def validStamp (y m d H M : Nat) : Prop :=
  1 ≤ y ∧ y ≤ 9999 ∧ 1 ≤ m ∧ m ≤ 12 ∧ 1 ≤ d ∧ d ≤ daysInMonth y m ∧
    H < 24 ∧ M < 60

instance (y m d H M : Nat) : Decidable (validStamp y m d H M) := by
  unfold validStamp; infer_instance

/-- The single-timestamp branch of `ServerController._worker` (main.py
lines 96-105): slice `YYMMDDHHMM`, convert each field with `int`, decode
the two-digit year as `2000+yy` if `yy < 90` else `1900+yy`, and build
`datetime(year, m, d, H, M)`. Any exception — a non-numeric slice or an
out-of-range `datetime` field — is caught by the surrounding
`try/except`, modelled as `none`. -/
def decode_single_ts (s : String) : Option Stamp :=
  match pyInt? (pySlice s 0 2), pyInt? (pySlice s 2 4), pyInt? (pySlice s 4 6),
        pyInt? (pySlice s 6 8), pyInt? (pySlice s 8 10) with
  | some yy, some m, some d, some H, some M =>
    let year := if yy < 90 then 2000 + yy else 1900 + yy
    if validStamp year m d H M then some ⟨year, m, d, H, M⟩ else none
  | _, _, _, _, _ => none

/-- The window used for one station in `_worker`'s loop: a nonempty
`single_ts` that decodes gives the one-instant window `(dt, dt)`
(`start_dt = end_dt = single_dt`), a failing decode skips the entry
(`continue`), and an empty `single_ts` falls back to the explicit window
parameters. -/
def stationWindow (single_ts : String) (defaultWindow : Stamp × Stamp) :
    Option (Stamp × Stamp) :=
  if single_ts = "" then some defaultWindow
  else (decode_single_ts single_ts).map (fun t => (t, t))

/-- Station loop of `_worker` (without cancellation): every station is
processed in turn, each with the window `stationWindow` yields; a `none`
entry is one that was skipped, and the loop always reaches the remaining
stations because the `except` branch just logs and continues. -/
def worker_windows (stations : List String) (single_ts : String)
    (defaultWindow : Stamp × Stamp) : List (String × Option (Stamp × Stamp)) :=
  stations.map (fun st => (st, stationWindow single_ts defaultWindow))

theorem pyInt?_fmt2 : ∀ n, n < 100 → pyInt? (fmt2 n) = some n := by decide

theorem fmt2_data_length (n : Nat) (h : n < 100) : (fmt2 n).data.length = 2 :=
  fmt2_length n h

/-- C9: a `YYMMDDHHMM` string decodes with the two-digit-year rule
(`2000+yy` when `yy < 90`, else `1900+yy`) and is used as both start and
end of a one-instant window; a malformed single-timestamp string makes
the entry skip while the run continues over all remaining stations. -/
theorem single_ts_decode (yy m d H M : Nat)
    (hyy : yy < 100) (hm : m < 100) (hd : d < 100) (hH : H < 100) (hM : M < 100)
    (hv : validStamp (if yy < 90 then 2000 + yy else 1900 + yy) m d H M) :
    (decode_single_ts (fmt2 yy ++ fmt2 m ++ fmt2 d ++ fmt2 H ++ fmt2 M) =
      some ⟨if yy < 90 then 2000 + yy else 1900 + yy, m, d, H, M⟩) ∧
    (∀ ts dw t, ts ≠ "" → decode_single_ts ts = some t →
      stationWindow ts dw = some (t, t)) ∧
    (∀ ts stations dw, ts ≠ "" → decode_single_ts ts = none →
      worker_windows stations ts dw = stations.map (fun st => (st, none))) := by
  refine ⟨?_, ?_, ?_⟩
  · set s : String := fmt2 yy ++ fmt2 m ++ fmt2 d ++ fmt2 H ++ fmt2 M with hs
    have hdata : s.data = (fmt2 yy).data ++ ((fmt2 m).data ++ ((fmt2 d).data ++
        ((fmt2 H).data ++ (fmt2 M).data))) := by
      simp [hs, String.data_append, List.append_assoc]
    have hd2 : s.data.drop 2 = (fmt2 m).data ++ ((fmt2 d).data ++
        ((fmt2 H).data ++ (fmt2 M).data)) := by
      rw [hdata, List.drop_left' (fmt2_data_length yy hyy)]
    have hd4 : s.data.drop 4 = (fmt2 d).data ++ ((fmt2 H).data ++ (fmt2 M).data) := by
      have hcomp : (s.data.drop 2).drop 2 = s.data.drop 4 := by rw [List.drop_drop]
      rw [← hcomp, hd2, List.drop_left' (fmt2_data_length m hm)]
    have hd6 : s.data.drop 6 = (fmt2 H).data ++ (fmt2 M).data := by
      have hcomp : (s.data.drop 4).drop 2 = s.data.drop 6 := by rw [List.drop_drop]
      rw [← hcomp, hd4, List.drop_left' (fmt2_data_length d hd)]
    have hd8 : s.data.drop 8 = (fmt2 M).data := by
      have hcomp : (s.data.drop 6).drop 2 = s.data.drop 8 := by rw [List.drop_drop]
      rw [← hcomp, hd6, List.drop_left' (fmt2_data_length H hH)]
    have hsl0 : pySlice s 0 2 = fmt2 yy := by
      unfold pySlice
      rw [List.drop_zero, hdata, show (2 : Nat) - 0 = 2 from rfl,
        List.take_left' (fmt2_data_length yy hyy)]
    have hsl2 : pySlice s 2 4 = fmt2 m := by
      unfold pySlice
      rw [hd2, show (4 : Nat) - 2 = 2 from rfl,
        List.take_left' (fmt2_data_length m hm)]
    have hsl4 : pySlice s 4 6 = fmt2 d := by
      unfold pySlice
      rw [hd4, show (6 : Nat) - 4 = 2 from rfl,
        List.take_left' (fmt2_data_length d hd)]
    have hsl6 : pySlice s 6 8 = fmt2 H := by
      unfold pySlice
      rw [hd6, show (8 : Nat) - 6 = 2 from rfl,
        List.take_left' (fmt2_data_length H hH)]
    have hsl8 : pySlice s 8 10 = fmt2 M := by
      unfold pySlice
      rw [hd8, show (10 : Nat) - 8 = 2 from rfl,
        List.take_of_length_le (by rw [fmt2_data_length M hM])]
    unfold decode_single_ts
    rw [hsl0, hsl2, hsl4, hsl6, hsl8, pyInt?_fmt2 yy hyy, pyInt?_fmt2 m hm,
      pyInt?_fmt2 d hd, pyInt?_fmt2 H hH, pyInt?_fmt2 M hM]
    simp only [if_pos hv]
  · intro ts dw t hts hdec
    unfold stationWindow
    rw [if_neg hts, hdec]
    rfl
  · intro ts stations dw hts hdec
    unfold worker_windows stationWindow
    rw [if_neg hts, hdec]
    rfl

/-- Witness for C9 at the timestamp `"2309051234"` (= 2023-09-05 12:34). -/
theorem single_ts_decode_witness :
    (decode_single_ts (fmt2 23 ++ fmt2 9 ++ fmt2 5 ++ fmt2 12 ++ fmt2 34) =
      some ⟨2023, 9, 5, 12, 34⟩) ∧
    (∀ ts dw t, ts ≠ "" → decode_single_ts ts = some t →
      stationWindow ts dw = some (t, t)) ∧
    (∀ ts stations dw, ts ≠ "" → decode_single_ts ts = none →
      worker_windows stations ts dw = stations.map (fun st => (st, none))) :=
  single_ts_decode 23 9 5 12 34 (by decide) (by decide) (by decide) (by decide)
    (by decide) (by decide)

/-! ## `download_files_by_prefix` -/

/-- Lexicographic order on dates (= `datetime.date` order). -/
def Date.le (x y : Date) : Prop :=
  x.year < y.year ∨ (x.year = y.year ∧
    (x.month < y.month ∨ (x.month = y.month ∧ x.day ≤ y.day)))

instance (x y : Date) : Decidable (Date.le x y) := by
  unfold Date.le; infer_instance

/-- Successor day, `date + timedelta(days=1)`, on valid dates. -/
def nextDay (d : Date) : Date :=
  if d.day < daysInMonth d.year d.month then ⟨d.year, d.month, d.day + 1⟩
  else if d.month < 12 then ⟨d.year, d.month + 1, 1⟩
  else ⟨d.year + 1, 1, 1⟩

/-- The body of the `cur_day` while loop with explicit fuel. -/
def dayRangeAux (last : Date) : Nat → Date → List Date
  | 0, _ => []
  | fuel + 1, cur =>
    if Date.le cur last then cur :: dayRangeAux last fuel (nextDay cur) else []

/-- The `cur_day` while loop of `download_files_by_prefix` (lines
219-227): every day from `s` through `e` inclusive. The fuel generously
over-approximates the day count (`nextDay` strictly increases the date,
so with this fuel the recursion equals the source loop). -/
def dayRange (s e : Date) : List Date :=
  dayRangeAux e (366 * (e.year + 1 - s.year) + 366) s

/-- The inner time loop: minute-of-day slots from `startMin` stepping
`step_minutes` while `≤ endMin`. (`step = 0` would loop forever in the
source; the model excludes it by returning `[]`.) -/
def timeSlots (startMin endMin step : Nat) : List Nat :=
  if step = 0 then []
  else if endMin < startMin then []
  else (List.range ((endMin - startMin) / step + 1)).map (fun k => startMin + k * step)

/-- Expansion `wanted_dt_list`: each candidate day paired with each time slot. -/
def wantedList (days : List Date) (startMin endMin step : Nat) :
    List (Date × Nat) :=
  days.flatMap (fun d => (timeSlots startMin endMin step).map (fun t => (d, t)))

/-- The remote server and the parts of the environment one
`download_files_by_prefix` run interacts with: which directories
`ftp.cwd` enters, what `nlst` returns for a directory (`none` = the
listing raises; the source's nested `try/except` absorbs it as
`files = []`), and the chunk stream served for each
`(remote_path, filename)` retrieval. -/
structure RunEnv where
  cwdOk : String → Bool
  listing : String → Option (List String)
  retr : String → String → RetrStream

/-- The scalar arguments of `download_files_by_prefix`. The cancel
condition (`cancel_event or _cancel_global`) is modelled as a flag that
is constant for the duration of the run: the events are only flipped by
other threads, and the model considers runs during which no flip occurs
(the flag is polled at each day and at each file, so a constant flag
exercises both checks). -/
structure RunArgs where
  remote_dir_base : String
  station_id : String
  local_base : String
  state : String
  test_mode : Bool
  cancel : Bool

/-- The accumulating state of a run. `downloaded`, `failed` and the local
filesystem `fs` (the set of existing local paths) are the source's state;
`resolvedDays`, `attempted`, `records` and `transfers` are ghost traces:
each `date_key` for which the resolve/list sequence ran, the local path
of every file reaching step 5, that file's recorded outcome
(`.inl` = into `downloaded`, `.inr` = into `failed`), and each actual
`download_file_with_progress` invocation. -/
structure RunState where
  downloaded : List String
  failed : List String
  fs : List String
  resolvedDays : List Date
  attempted : List String
  records : List (String ⊕ String)
  transfers : List (String × String)

/-- The state at the start of a run over local filesystem `fs0`. -/
def initState (fs0 : List String) : RunState :=
  ⟨[], [], fs0, [], [], [], []⟩

/-- Local path `local_base/state/station_id/yyyy/mm/dd/<base_fname>` (lines 277-282). -/
def localPathFor (a : RunArgs) (d : Date) (base_fname : String) : String :=
  pyJoin2 (pyJoin [a.local_base, pyStrip a.state, a.station_id,
    fmt4 d.year, fmt2 d.month, fmt2 d.day]) base_fname

/-- Step 5 for one matching file (lines 276-311): skip-if-exists, the
test-mode dummy write (modelled as succeeding), or the actual transfer
(trying `cwd` + plain-name `RETR` first and the full-path `RETR` on
failure — both are `download_file_with_progress` invocations on the same
remote file, so one stream models them; on failure the partial file was
already removed, so `fs` is unchanged). -/
def processFile (env : RunEnv) (a : RunArgs) (remote_path : String) (d : Date)
    (st : RunState) (base_fname : String) : RunState :=
  let local_path := localPathFor a d base_fname
  if local_path ∈ st.fs then
    { st with downloaded := st.downloaded ++ [local_path],
              attempted := st.attempted ++ [local_path],
              records := st.records ++ [Sum.inl local_path] }
  else if a.test_mode then
    { st with downloaded := st.downloaded ++ [local_path],
              fs := st.fs ++ [local_path],
              attempted := st.attempted ++ [local_path],
              records := st.records ++ [Sum.inl local_path] }
  else
    let res := download_file_with_progress (env.retr remote_path base_fname) none
    if res.1 then
      { st with downloaded := st.downloaded ++ [local_path],
                fs := st.fs ++ [local_path],
                attempted := st.attempted ++ [local_path],
                records := st.records ++ [Sum.inl local_path],
                transfers := st.transfers ++ [(remote_path, base_fname)] }
    else
      { st with failed := st.failed ++ [remote_path ++ "/" ++ base_fname],
                attempted := st.attempted ++ [local_path],
                records := st.records ++ [Sum.inr (remote_path ++ "/" ++ base_fname)],
                transfers := st.transfers ++ [(remote_path, base_fname)] }

/-- One iteration of the file loop (lines 269-275): normalise to the
basename and apply the `Matcher`; non-matching files are skipped. -/
def fileStep (env : RunEnv) (a : RunArgs) (remote_path : String) (d : Date)
    (acc : RunState) (fname : String) : RunState :=
  let base_fname := pyBasename fname
  if matches_station_file base_fname a.station_id then
    processFile env a remote_path d acc base_fname
  else acc

/-- The file loop; the cancel flag is polled before each file. -/
def fileLoop (env : RunEnv) (a : RunArgs) (remote_path : String) (d : Date)
    (st : RunState) (files : List String) : RunState :=
  if a.cancel then st else files.foldl (fileStep env a remote_path d) st

/-- One deduplicated day (lines 247-266): resolve the remote directory
(recording the attempt), skip silently when no candidate exists, else
list and run the file loop. -/
def processDay (env : RunEnv) (a : RunArgs) (st : RunState) (d : Date) :
    RunState :=
  let st1 := { st with resolvedDays := st.resolvedDays ++ [d] }
  match find_existing_remote_path env.cwdOk a.remote_dir_base d with
  | none => st1
  | some remote_path =>
    fileLoop env a remote_path d st1 ((env.listing remote_path).getD [])

/-- The `wanted_dt_list` loop with the `dates_seen` set (lines 237-245):
a datetime whose `(year, month, day)` was already seen is skipped. -/
def dayLoop (env : RunEnv) (a : RunArgs) :
    List (Date × Nat) → List Date → RunState → RunState
  | [], _, st => st
  | (d, _) :: rest, seen, st =>
    if d ∈ seen then dayLoop env a rest seen st
    else dayLoop env a rest (d :: seen) (processDay env a st d)

/-- Function `download_files_by_prefix(...)` from `downloader.py`, after the
control connection has been established (`ftp_connect` is modelled
separately; a failed connection aborts before this loop). The source's
return value is the pair `(downloaded, failed)` of the final state; the
cancel flag is polled before each day. -/
def download_files_run (env : RunEnv) (a : RunArgs) (startDay endDay : Date)
    (startMin endMin step : Nat) (fs0 : List String) : RunState :=
  let wanted := wantedList (dayRange startDay endDay) startMin endMin step
  if a.cancel then initState fs0
  else dayLoop env a wanted [] (initState fs0)

/-! ### Per-day dedup (C7) -/

/-- The days the `dates_seen` mechanism lets through, in order. -/
def pendingDays : List (Date × Nat) → List Date → List Date
  | [], _ => []
  | (d, _) :: rest, seen =>
    if d ∈ seen then pendingDays rest seen
    else d :: pendingDays rest (d :: seen)

theorem processFile_resolvedDays (env : RunEnv) (a : RunArgs)
    (remote_path : String) (d : Date) (st : RunState) (base_fname : String) :
    (processFile env a remote_path d st base_fname).resolvedDays =
      st.resolvedDays := by
  unfold processFile
  by_cases h1 : localPathFor a d base_fname ∈ st.fs
  · simp [h1]
  · by_cases h2 : a.test_mode
    · simp [h1, h2]
    · by_cases h3 : (download_file_with_progress (env.retr remote_path base_fname) none).1
      · simp [h1, h2, h3]
      · simp [h1, h2, h3]

theorem fileStep_resolvedDays (env : RunEnv) (a : RunArgs)
    (remote_path : String) (d : Date) (acc : RunState) (fname : String) :
    (fileStep env a remote_path d acc fname).resolvedDays = acc.resolvedDays := by
  unfold fileStep
  by_cases h : matches_station_file (pyBasename fname) a.station_id
  · simp [h, processFile_resolvedDays]
  · simp [h]

theorem foldl_fileStep_resolvedDays (env : RunEnv) (a : RunArgs)
    (remote_path : String) (d : Date) (files : List String) : ∀ st : RunState,
    (files.foldl (fileStep env a remote_path d) st).resolvedDays =
      st.resolvedDays := by
  induction files with
  | nil => intro st; rfl
  | cons f t ih =>
    intro st
    rw [List.foldl_cons, ih, fileStep_resolvedDays]

theorem fileLoop_resolvedDays (env : RunEnv) (a : RunArgs)
    (remote_path : String) (d : Date) (st : RunState) (files : List String) :
    (fileLoop env a remote_path d st files).resolvedDays = st.resolvedDays := by
  unfold fileLoop
  split
  · rfl
  · rw [foldl_fileStep_resolvedDays]

theorem processDay_resolvedDays (env : RunEnv) (a : RunArgs) (st : RunState)
    (d : Date) :
    (processDay env a st d).resolvedDays = st.resolvedDays ++ [d] := by
  unfold processDay
  cases find_existing_remote_path env.cwdOk a.remote_dir_base d with
  | none => rfl
  | some remote_path => rw [fileLoop_resolvedDays]

theorem dayLoop_resolvedDays (env : RunEnv) (a : RunArgs) :
    ∀ (l : List (Date × Nat)) (seen : List Date) (st : RunState),
    (dayLoop env a l seen st).resolvedDays =
      st.resolvedDays ++ pendingDays l seen := by
  intro l
  induction l with
  | nil =>
    intro seen st
    simp [dayLoop, pendingDays]
  | cons p t ih =>
    intro seen st
    obtain ⟨d, tm⟩ := p
    by_cases hd : d ∈ seen
    · simp [dayLoop, pendingDays, hd, ih]
    · simp [dayLoop, pendingDays, hd, ih, processDay_resolvedDays,
        List.append_assoc]

theorem pendingDays_spec : ∀ (l : List (Date × Nat)) (seen : List Date),
    (pendingDays l seen).Nodup ∧
    (∀ x, x ∈ pendingDays l seen ↔ (x ∈ l.map Prod.fst ∧ x ∉ seen)) := by
  intro l
  induction l with
  | nil => intro seen; simp [pendingDays]
  | cons p t ih =>
    intro seen
    obtain ⟨d, tm⟩ := p
    by_cases hd : d ∈ seen
    · obtain ⟨ihn, ihm⟩ := ih seen
      refine ⟨by simpa [pendingDays, hd] using ihn, ?_⟩
      intro x
      rw [show pendingDays ((d, tm) :: t) seen = pendingDays t seen from by
        simp [pendingDays, hd]]
      rw [ihm x]
      simp only [List.map_cons, List.mem_cons]
      constructor
      · rintro ⟨hx1, hx2⟩
        exact ⟨Or.inr hx1, hx2⟩
      · rintro ⟨hx1 | hx1, hx2⟩
        · exact absurd (hx1 ▸ hd) hx2
        · exact ⟨hx1, hx2⟩
    · obtain ⟨ihn, ihm⟩ := ih (d :: seen)
      have heq : pendingDays ((d, tm) :: t) seen =
          d :: pendingDays t (d :: seen) := by simp [pendingDays, hd]
      constructor
      · rw [heq]
        refine List.nodup_cons.mpr ⟨?_, ihn⟩
        intro hmem
        have := (ihm d).mp hmem
        exact this.2 (List.mem_cons_self d seen)
      · intro x
        rw [heq]
        simp only [List.mem_cons, ihm x, List.map_cons]
        constructor
        · rintro (rfl | ⟨hx1, hx2⟩)
          · exact ⟨Or.inl rfl, hd⟩
          · exact ⟨Or.inr hx1, fun hxs => hx2 (Or.inr hxs)⟩
        · rintro ⟨hx1 | hx1, hx2⟩
          · exact Or.inl hx1
          · by_cases hxd : x = d
            · exact Or.inl hxd
            · exact Or.inr ⟨hx1, by simp [hxd, hx2]⟩

/-- C7: within a single run, every calendar day in the expanded window is
resolved and listed at most once (`resolvedDays` has no duplicates), and
— when the run is not cancelled — exactly once per distinct
`(year, month, day)` of the expanded window, however many timestamps per
day the step granularity produces. -/
theorem per_day_dedup (env : RunEnv) (a : RunArgs) (startDay endDay : Date)
    (startMin endMin step : Nat) (fs0 : List String)
    (hc : a.cancel = false) :
    (download_files_run env a startDay endDay startMin endMin step fs0).resolvedDays.Nodup ∧
    (∀ d, d ∈ (download_files_run env a startDay endDay startMin endMin step fs0).resolvedDays ↔
      d ∈ (wantedList (dayRange startDay endDay) startMin endMin step).map Prod.fst) := by
  unfold download_files_run
  rw [hc]
  simp only [Bool.false_eq_true, if_false]
  rw [dayLoop_resolvedDays]
  obtain ⟨hn, hm⟩ := pendingDays_spec
    (wantedList (dayRange startDay endDay) startMin endMin step) []
  constructor
  · simpa [initState] using hn
  · intro d
    have := hm d
    simpa [initState] using this

/-- Witness for C7: a one-day window whose 15-minute step yields three
timestamps for the same day; the day is resolved exactly once. -/
theorem per_day_dedup_witness :
    (download_files_run
      ⟨fun _ => false, fun _ => none, fun _ _ => ⟨[], false⟩⟩
      ⟨"/data", "RTU12", "downloads", "", false, false⟩
      ⟨2023, 9, 5⟩ ⟨2023, 9, 5⟩ 0 30 15 []).resolvedDays.Nodup ∧
    (∀ d, d ∈ (download_files_run
      ⟨fun _ => false, fun _ => none, fun _ _ => ⟨[], false⟩⟩
      ⟨"/data", "RTU12", "downloads", "", false, false⟩
      ⟨2023, 9, 5⟩ ⟨2023, 9, 5⟩ 0 30 15 []).resolvedDays ↔
      d ∈ (wantedList (dayRange ⟨2023, 9, 5⟩ ⟨2023, 9, 5⟩) 0 30 15).map Prod.fst) :=
  per_day_dedup
    ⟨fun _ => false, fun _ => none, fun _ _ => ⟨[], false⟩⟩
    ⟨"/data", "RTU12", "downloads", "", false, false⟩
    ⟨2023, 9, 5⟩ ⟨2023, 9, 5⟩ 0 30 15 [] rfl

/-! ### Result accounting (C6) -/

/-- The local paths recorded as successes, in order. -/
def sumLefts (l : List (String ⊕ String)) : List String :=
  l.filterMap (fun x => Sum.elim some (fun _ => none) x)

/-- The remote identifiers recorded as failures, in order. -/
def sumRights (l : List (String ⊕ String)) : List String :=
  l.filterMap (fun x => Sum.elim (fun _ => none) some x)

theorem sumLefts_append (l1 l2 : List (String ⊕ String)) :
    sumLefts (l1 ++ l2) = sumLefts l1 ++ sumLefts l2 := by
  simp [sumLefts, List.filterMap_append]

theorem sumRights_append (l1 l2 : List (String ⊕ String)) :
    sumRights (l1 ++ l2) = sumRights l1 ++ sumRights l2 := by
  simp [sumRights, List.filterMap_append]

theorem sumLefts_length_add_sumRights_length (l : List (String ⊕ String)) :
    (sumLefts l).length + (sumRights l).length = l.length := by
  induction l with
  | nil => rfl
  | cons x t ih =>
    cases x <;> simp [sumLefts, sumRights, List.filterMap_cons] at ih ⊢ <;> omega

/-- The bookkeeping invariant behind C6: the two collections are exactly
the successes and failures of the per-file records, one record per
attempted file. -/
def Accounted (st : RunState) : Prop :=
  st.downloaded = sumLefts st.records ∧
  st.failed = sumRights st.records ∧
  st.records.length = st.attempted.length

theorem processFile_accounted (env : RunEnv) (a : RunArgs)
    (remote_path : String) (d : Date) (st : RunState) (base_fname : String)
    (h : Accounted st) :
    Accounted (processFile env a remote_path d st base_fname) := by
  obtain ⟨h1, h2, h3⟩ := h
  unfold processFile
  by_cases c1 : localPathFor a d base_fname ∈ st.fs
  · simp [c1, Accounted, sumLefts_append, sumRights_append, sumLefts, sumRights,
      h1, h2, h3]
  · by_cases c2 : a.test_mode
    · simp [c1, c2, Accounted, sumLefts_append, sumRights_append, sumLefts,
        sumRights, h1, h2, h3]
    · by_cases c3 : (download_file_with_progress (env.retr remote_path base_fname) none).1
      · simp [c1, c2, c3, Accounted, sumLefts_append, sumRights_append,
          sumLefts, sumRights, h1, h2, h3]
      · simp [c1, c2, c3, Accounted, sumLefts_append, sumRights_append,
          sumLefts, sumRights, h1, h2, h3]

theorem fileStep_accounted (env : RunEnv) (a : RunArgs) (remote_path : String)
    (d : Date) (acc : RunState) (fname : String) (h : Accounted acc) :
    Accounted (fileStep env a remote_path d acc fname) := by
  unfold fileStep
  by_cases hm : matches_station_file (pyBasename fname) a.station_id
  · simpa [hm] using processFile_accounted env a remote_path d acc (pyBasename fname) h
  · simpa [hm] using h

theorem foldl_fileStep_accounted (env : RunEnv) (a : RunArgs)
    (remote_path : String) (d : Date) (files : List String) :
    ∀ st : RunState, Accounted st →
      Accounted (files.foldl (fileStep env a remote_path d) st) := by
  induction files with
  | nil => intro st h; exact h
  | cons f t ih =>
    intro st h
    rw [List.foldl_cons]
    exact ih _ (fileStep_accounted env a remote_path d st f h)

theorem processDay_accounted (env : RunEnv) (a : RunArgs) (st : RunState)
    (d : Date) (h : Accounted st) :
    Accounted (processDay env a st d) := by
  have h1 : Accounted { st with resolvedDays := st.resolvedDays ++ [d] } := h
  unfold processDay
  cases find_existing_remote_path env.cwdOk a.remote_dir_base d with
  | none => exact h1
  | some remote_path =>
    unfold fileLoop
    by_cases hc : a.cancel
    · simpa [hc] using h1
    · simp only [hc, Bool.false_eq_true, if_false]
      exact foldl_fileStep_accounted env a remote_path d _ _ h1

theorem dayLoop_accounted (env : RunEnv) (a : RunArgs) :
    ∀ (l : List (Date × Nat)) (seen : List Date) (st : RunState),
      Accounted st → Accounted (dayLoop env a l seen st) := by
  intro l
  induction l with
  | nil => intro seen st h; exact h
  | cons p t ih =>
    intro seen st h
    obtain ⟨d, tm⟩ := p
    by_cases hd : d ∈ seen
    · simpa [dayLoop, hd] using ih seen st h
    · simpa [dayLoop, hd] using
        ih (d :: seen) _ (processDay_accounted env a st d h)

/-- C6: the orchestrator's two collections are exhaustive and disjoint
over the attempted files — every file that reached step 5 produced
exactly one record, the successful records are exactly `downloaded`, the
failing records are exactly `failed`, and the two lengths sum to the
number of attempted files. -/
theorem result_accounting (env : RunEnv) (a : RunArgs) (startDay endDay : Date)
    (startMin endMin step : Nat) (fs0 : List String) :
    (download_files_run env a startDay endDay startMin endMin step fs0).downloaded =
      sumLefts (download_files_run env a startDay endDay startMin endMin step fs0).records ∧
    (download_files_run env a startDay endDay startMin endMin step fs0).failed =
      sumRights (download_files_run env a startDay endDay startMin endMin step fs0).records ∧
    (download_files_run env a startDay endDay startMin endMin step fs0).records.length =
      (download_files_run env a startDay endDay startMin endMin step fs0).attempted.length ∧
    (download_files_run env a startDay endDay startMin endMin step fs0).downloaded.length +
        (download_files_run env a startDay endDay startMin endMin step fs0).failed.length =
      (download_files_run env a startDay endDay startMin endMin step fs0).attempted.length := by
  have hinit : Accounted (initState fs0) := by
    refine ⟨rfl, rfl, rfl⟩
  have hacc : Accounted (download_files_run env a startDay endDay startMin endMin step fs0) := by
    unfold download_files_run
    by_cases hc : a.cancel
    · simpa [hc] using hinit
    · simp only [hc, Bool.false_eq_true, if_false]
      exact dayLoop_accounted env a _ [] _ hinit
  obtain ⟨h1, h2, h3⟩ := hacc
  refine ⟨h1, h2, h3, ?_⟩
  rw [h1, h2, sumLefts_length_add_sumRights_length, h3]

/-! ### Skip-if-exists and idempotence (C5) -/

/-- The files the orchestrator sees for day `d`: the listing of the
resolved remote directory, nothing when no candidate directory exists. -/
def listedFiles (env : RunEnv) (base : String) (d : Date) : List String :=
  match find_existing_remote_path env.cwdOk base d with
  | none => []
  | some rp => (env.listing rp).getD []

/-- Premise of the idempotence property: every matching remote file's
computed local path already exists in `fs0`. -/
def AllPresent (env : RunEnv) (a : RunArgs) (days : List Date)
    (fs0 : List String) : Prop :=
  ∀ d ∈ days, ∀ fname ∈ listedFiles env a.remote_dir_base d,
    matches_station_file (pyBasename fname) a.station_id = true →
    localPathFor a d (pyBasename fname) ∈ fs0

theorem processFile_skip (env : RunEnv) (a : RunArgs) (remote_path : String)
    (d : Date) (st : RunState) (base_fname : String)
    (h : localPathFor a d base_fname ∈ st.fs) :
    processFile env a remote_path d st base_fname =
      { st with downloaded := st.downloaded ++ [localPathFor a d base_fname],
                attempted := st.attempted ++ [localPathFor a d base_fname],
                records := st.records ++ [Sum.inl (localPathFor a d base_fname)] } := by
  unfold processFile
  simp [h]

theorem foldl_fileStep_present (env : RunEnv) (a : RunArgs)
    (remote_path : String) (d : Date) (files : List String) :
    ∀ st : RunState,
      (∀ fname ∈ files, matches_station_file (pyBasename fname) a.station_id = true →
        localPathFor a d (pyBasename fname) ∈ st.fs) →
      (files.foldl (fileStep env a remote_path d) st).fs = st.fs ∧
      (files.foldl (fileStep env a remote_path d) st).transfers = st.transfers ∧
      (files.foldl (fileStep env a remote_path d) st).failed = st.failed ∧
      (∀ p ∈ (files.foldl (fileStep env a remote_path d) st).downloaded,
        p ∈ st.downloaded ∨ p ∈ st.fs) := by
  induction files with
  | nil =>
    intro st _
    exact ⟨rfl, rfl, rfl, fun p hp => Or.inl hp⟩
  | cons f t ih =>
    intro st hall
    rw [List.foldl_cons]
    by_cases hm : matches_station_file (pyBasename f) a.station_id = true
    · have hpres : localPathFor a d (pyBasename f) ∈ st.fs :=
        hall f (List.mem_cons_self f t) hm
      have hstep : fileStep env a remote_path d st f =
          { st with downloaded := st.downloaded ++ [localPathFor a d (pyBasename f)],
                    attempted := st.attempted ++ [localPathFor a d (pyBasename f)],
                    records := st.records ++ [Sum.inl (localPathFor a d (pyBasename f))] } := by
        unfold fileStep
        simp only [hm, if_true]
        exact processFile_skip env a remote_path d st (pyBasename f) hpres
      rw [hstep]
      obtain ⟨ih1, ih2, ih3, ih4⟩ := ih
        { st with downloaded := st.downloaded ++ [localPathFor a d (pyBasename f)],
                  attempted := st.attempted ++ [localPathFor a d (pyBasename f)],
                  records := st.records ++ [Sum.inl (localPathFor a d (pyBasename f))] }
        (fun g hg hmg => hall g (List.mem_cons_of_mem f hg) hmg)
      refine ⟨ih1, ih2, ih3, ?_⟩
      intro p hp
      rcases ih4 p hp with hp1 | hp1
      · have hp1a : p ∈ st.downloaded ++ [localPathFor a d (pyBasename f)] := hp1
        rcases List.mem_append.mp hp1a with hp2 | hp2
        · exact Or.inl hp2
        · simp only [List.mem_singleton] at hp2
          exact Or.inr (hp2 ▸ hpres)
      · exact Or.inr hp1
    · have hstep : fileStep env a remote_path d st f = st := by
        unfold fileStep
        simp [hm]
      rw [hstep]
      exact ih st (fun g hg hmg => hall g (List.mem_cons_of_mem f hg) hmg)

theorem processDay_present (env : RunEnv) (a : RunArgs) (st : RunState)
    (d : Date)
    (h : ∀ fname ∈ listedFiles env a.remote_dir_base d,
      matches_station_file (pyBasename fname) a.station_id = true →
      localPathFor a d (pyBasename fname) ∈ st.fs) :
    (processDay env a st d).fs = st.fs ∧
    (processDay env a st d).transfers = st.transfers ∧
    (processDay env a st d).failed = st.failed ∧
    (∀ p ∈ (processDay env a st d).downloaded,
      p ∈ st.downloaded ∨ p ∈ st.fs) := by
  unfold processDay
  unfold listedFiles at h
  cases hf : find_existing_remote_path env.cwdOk a.remote_dir_base d with
  | none =>
    exact ⟨rfl, rfl, rfl, fun p hp => Or.inl hp⟩
  | some remote_path =>
    rw [hf] at h
    dsimp only at h ⊢
    unfold fileLoop
    by_cases hc : a.cancel
    · rw [if_pos hc]
      exact ⟨rfl, rfl, rfl, fun p hp => Or.inl hp⟩
    · rw [if_neg hc]
      exact foldl_fileStep_present env a remote_path d _
        { st with resolvedDays := st.resolvedDays ++ [d] } h

theorem dayLoop_present (env : RunEnv) (a : RunArgs) :
    ∀ (l : List (Date × Nat)) (seen : List Date) (st : RunState),
      (∀ d ∈ l.map Prod.fst, ∀ fname ∈ listedFiles env a.remote_dir_base d,
        matches_station_file (pyBasename fname) a.station_id = true →
        localPathFor a d (pyBasename fname) ∈ st.fs) →
      (dayLoop env a l seen st).fs = st.fs ∧
      (dayLoop env a l seen st).transfers = st.transfers ∧
      (dayLoop env a l seen st).failed = st.failed ∧
      (∀ p ∈ (dayLoop env a l seen st).downloaded,
        p ∈ st.downloaded ∨ p ∈ st.fs) := by
  intro l
  induction l with
  | nil =>
    intro seen st _
    exact ⟨rfl, rfl, rfl, fun p hp => Or.inl hp⟩
  | cons q t ih =>
    intro seen st hall
    obtain ⟨d, tm⟩ := q
    by_cases hd : d ∈ seen
    · rw [show dayLoop env a ((d, tm) :: t) seen st = dayLoop env a t seen st
        from by simp [dayLoop, hd]]
      exact ih seen st (fun d2 hd2 => hall d2 (List.mem_cons_of_mem _ hd2))
    · rw [show dayLoop env a ((d, tm) :: t) seen st =
        dayLoop env a t (d :: seen) (processDay env a st d) from by
          simp [dayLoop, hd]]
      obtain ⟨p1, p2, p3, p4⟩ := processDay_present env a st d
        (hall d (by simp))
      obtain ⟨i1, i2, i3, i4⟩ := ih (d :: seen) (processDay env a st d)
        (fun d2 hd2 => by
          rw [p1]
          exact hall d2 (List.mem_cons_of_mem _ hd2))
      refine ⟨by rw [i1, p1], by rw [i2, p2], by rw [i3, p3], ?_⟩
      intro p hp
      rcases i4 p hp with hp1 | hp1
      · rcases p4 p hp1 with hp2 | hp2
        · exact Or.inl hp2
        · exact Or.inr hp2
      · rw [p1] at hp1
        exact Or.inr hp1

/-- C5: a matching remote file whose computed local path already exists
is recorded as an already-satisfied success with no transfer and no write
to that path; consequently, when every matching file's local path already
exists, the whole run performs zero transfers, fails nothing, leaves the
local filesystem untouched, and reports only already-present paths. -/
theorem skip_existing_idempotent (env : RunEnv) (a : RunArgs)
    (startDay endDay : Date) (startMin endMin step : Nat) (fs0 : List String)
    (H : AllPresent env a
      ((wantedList (dayRange startDay endDay) startMin endMin step).map Prod.fst)
      fs0) :
    (∀ (remote_path : String) (d : Date) (st : RunState) (base_fname : String),
      localPathFor a d base_fname ∈ st.fs →
      processFile env a remote_path d st base_fname =
        { st with downloaded := st.downloaded ++ [localPathFor a d base_fname],
                  attempted := st.attempted ++ [localPathFor a d base_fname],
                  records := st.records ++ [Sum.inl (localPathFor a d base_fname)] }) ∧
    (download_files_run env a startDay endDay startMin endMin step fs0).fs = fs0 ∧
    (download_files_run env a startDay endDay startMin endMin step fs0).transfers = [] ∧
    (download_files_run env a startDay endDay startMin endMin step fs0).failed = [] ∧
    (∀ p ∈ (download_files_run env a startDay endDay startMin endMin step fs0).downloaded,
      p ∈ fs0) := by
  refine ⟨fun remote_path d st base_fname h =>
    processFile_skip env a remote_path d st base_fname h, ?_⟩
  unfold download_files_run
  by_cases hc : a.cancel
  · simp only [hc, if_true]
    exact ⟨rfl, rfl, rfl, fun p hp => by simp [initState] at hp⟩
  · simp only [hc, Bool.false_eq_true, if_false]
    obtain ⟨h1, h2, h3, h4⟩ := dayLoop_present env a
      (wantedList (dayRange startDay endDay) startMin endMin step) []
      (initState fs0)
      (fun d hd fname hf hm => H d hd fname hf hm)
    refine ⟨h1, h2, h3, ?_⟩
    intro p hp
    rcases h4 p hp with hp1 | hp1
    · simp [initState] at hp1
    · exact hp1

instance (env : RunEnv) (a : RunArgs) (days : List Date) (fs0 : List String) :
    Decidable (AllPresent env a days fs0) := by
  unfold AllPresent; infer_instance

/-- Witness for C5: one day, a remote directory holding
`RTU12_0600.txt` (matching) and `other.txt` (not matching), and a local
filesystem already holding the matching file's computed local path; the
run performs no transfer, fails nothing, writes nothing, and reports only
the already-present path. -/
theorem skip_existing_idempotent_witness :
    AllPresent
      ⟨fun s => s == "/data/2023/09/05/",
       fun p => if p == "/data/2023/09/05/"
         then some ["RTU12_0600.txt", "other.txt"] else none,
       fun _ _ => ⟨[], false⟩⟩
      ⟨"/data", "RTU12", "downloads", "", false, false⟩
      ((wantedList (dayRange ⟨2023, 9, 5⟩ ⟨2023, 9, 5⟩) 0 0 15).map Prod.fst)
      [localPathFor ⟨"/data", "RTU12", "downloads", "", false, false⟩
        ⟨2023, 9, 5⟩ "RTU12_0600.txt"] ∧
    ((download_files_run
      ⟨fun s => s == "/data/2023/09/05/",
       fun p => if p == "/data/2023/09/05/"
         then some ["RTU12_0600.txt", "other.txt"] else none,
       fun _ _ => ⟨[], false⟩⟩
      ⟨"/data", "RTU12", "downloads", "", false, false⟩
      ⟨2023, 9, 5⟩ ⟨2023, 9, 5⟩ 0 0 15
      [localPathFor ⟨"/data", "RTU12", "downloads", "", false, false⟩
        ⟨2023, 9, 5⟩ "RTU12_0600.txt"]).fs =
      [localPathFor ⟨"/data", "RTU12", "downloads", "", false, false⟩
        ⟨2023, 9, 5⟩ "RTU12_0600.txt"] ∧
    (download_files_run
      ⟨fun s => s == "/data/2023/09/05/",
       fun p => if p == "/data/2023/09/05/"
         then some ["RTU12_0600.txt", "other.txt"] else none,
       fun _ _ => ⟨[], false⟩⟩
      ⟨"/data", "RTU12", "downloads", "", false, false⟩
      ⟨2023, 9, 5⟩ ⟨2023, 9, 5⟩ 0 0 15
      [localPathFor ⟨"/data", "RTU12", "downloads", "", false, false⟩
        ⟨2023, 9, 5⟩ "RTU12_0600.txt"]).transfers = [] ∧
    (download_files_run
      ⟨fun s => s == "/data/2023/09/05/",
       fun p => if p == "/data/2023/09/05/"
         then some ["RTU12_0600.txt", "other.txt"] else none,
       fun _ _ => ⟨[], false⟩⟩
      ⟨"/data", "RTU12", "downloads", "", false, false⟩
      ⟨2023, 9, 5⟩ ⟨2023, 9, 5⟩ 0 0 15
      [localPathFor ⟨"/data", "RTU12", "downloads", "", false, false⟩
        ⟨2023, 9, 5⟩ "RTU12_0600.txt"]).failed = [] ∧
    (∀ p ∈ (download_files_run
      ⟨fun s => s == "/data/2023/09/05/",
       fun p => if p == "/data/2023/09/05/"
         then some ["RTU12_0600.txt", "other.txt"] else none,
       fun _ _ => ⟨[], false⟩⟩
      ⟨"/data", "RTU12", "downloads", "", false, false⟩
      ⟨2023, 9, 5⟩ ⟨2023, 9, 5⟩ 0 0 15
      [localPathFor ⟨"/data", "RTU12", "downloads", "", false, false⟩
        ⟨2023, 9, 5⟩ "RTU12_0600.txt"]).downloaded,
      p ∈ [localPathFor ⟨"/data", "RTU12", "downloads", "", false, false⟩
        ⟨2023, 9, 5⟩ "RTU12_0600.txt"])) :=
  ⟨by decide,
   (skip_existing_idempotent
      ⟨fun s => s == "/data/2023/09/05/",
       fun p => if p == "/data/2023/09/05/"
         then some ["RTU12_0600.txt", "other.txt"] else none,
       fun _ _ => ⟨[], false⟩⟩
      ⟨"/data", "RTU12", "downloads", "", false, false⟩
      ⟨2023, 9, 5⟩ ⟨2023, 9, 5⟩ 0 0 15
      [localPathFor ⟨"/data", "RTU12", "downloads", "", false, false⟩
        ⟨2023, 9, 5⟩ "RTU12_0600.txt"]
      (by decide)).2⟩
